import Mathlib

/-!
# Verification of the `Keyboard<N>` debouncer (src/src/Keyboard.hpp)

Shallow embedding of the key-set debouncer.  All times are `uint32_t`
in the source; we model them as `Nat` reduced modulo `2^32`, with
`sub32` for the wrapping unsigned subtraction `a - b`.

The hardware collaborators (`GPIO_ReadInputDataBit`, `m_getMillis`) are
modelled as inputs to `update`/`getStatus`: the raw pin level of each
key is a `Bool` (one entry per configured key, in configuration order),
and `now` is the value the millisecond clock returned for this call.
The user callback `m_callback` is modelled by a `Bool` flag (registered
or not) plus an explicit trace of the invocations `update` performs:
one `Option KeyEvent` per configured key, `some e` when the callback
was invoked for that key during the call with payload `e`.
-/

/-- `2^32`, the modulus of the `uint32_t` arithmetic used by the source. -/
def U32 : Nat := 2 ^ 32

/-- Wrapping `uint32_t` subtraction `a - b` (both operands already reduced
mod `2^32` in the states we build; the `% U32` on `b` keeps it total). -/
def sub32 (a b : Nat) : Nat := (a + U32 - b % U32) % U32

/-- `KeyConfig`: configuration of one polled key (Keyboard.hpp lines 68-77).
The `port`/`pin`/`pinMode` fields are hardware glue consumed only by the
constructor's auto-init and by the pin-read collaborator, which we model
as the raw-level input of `update`; they carry no logic, so we keep the
logically relevant fields.  `name` is a `const char *` that may be null:
`Option String`. -/
structure KeyConfig where
  activeLevel : Bool
  name : Option String
  holdTimeMs : Nat
deriving DecidableEq

/-- `KeyState`: mutable per-key state (Keyboard.hpp lines 159-162). -/
structure KeyState where
  pressed : Bool
  pressTime : Nat
deriving DecidableEq

/-- `KeyEvent`: payload passed to the callback on release (lines 80-85). -/
structure KeyEvent where
  name : Option String
  isLongPress : Bool
  pressDuration : Nat
deriving DecidableEq

/-- `KeyStatus`: per-key snapshot returned by `getStatus` (lines 87-92). -/
structure KeyStatus where
  name : Option String
  isPressed : Bool
  isLongPress : Bool
  pressDuration : Nat
deriving DecidableEq

/-- The `Keyboard<N>` object: configuration array, per-key states,
whether a callback is registered (`m_callback != nullptr`), the
debounce interval and the time of the last accepted poll.  `m_keys`
and `m_states` both have length `N`; we carry that as hypotheses where
a claim needs it. -/
structure Keyboard where
  keys : List KeyConfig
  states : List KeyState
  callback : Bool
  debounceMs : Nat
  lastRead : Nat
deriving DecidableEq

/-- Result of one `update()` call: the new object, the returned
`anyKeyChanged` flag, and the callback-invocation trace (positional:
entry `i` is `some e` iff the callback was invoked for key `i` during
this call, with payload `e`). -/
structure UpdResult where
  kb : Keyboard
  changed : Bool
  events : List (Option KeyEvent)
deriving DecidableEq

/-- The body of `update()`'s per-key loop (Keyboard.hpp lines 202-220)
for one key, given `raw = (level == activeLevel)`: returns the new
`KeyState`, whether this key set `anyKeyChanged`, and the callback
invocation it performed (if any). -/
def stepKey (now : Nat) (cb : Bool) (cfg : KeyConfig) (raw : Bool)
    (st : KeyState) : KeyState × Bool × Option KeyEvent :=
  if raw && !st.pressed then
    (⟨true, now⟩, true, none)
  else if !raw && st.pressed then
    let duration := sub32 now st.pressTime
    let isLong := decide (duration ≥ cfg.holdTimeMs)
    (⟨false, st.pressTime⟩, true,
      if cb then some ⟨cfg.name, isLong, duration⟩ else none)
  else
    (st, false, none)

/-- The `for (size_t i = 0; i < N; ++i)` scan of `update()` (lines
191-221), walking the configuration array, the state array and the raw
pin levels in lockstep. -/
def scan (now : Nat) (cb : Bool) :
    List KeyConfig → List KeyState → List Bool →
    List KeyState × Bool × List (Option KeyEvent)
  | cfg :: ks, st :: sts, lvl :: ls =>
    let raw := lvl == cfg.activeLevel
    let r := stepKey now cb cfg raw st
    let rest := scan now cb ks sts ls
    (r.1 :: rest.1, r.2.1 || rest.2.1, r.2.2 :: rest.2.2)
  | _, _, _ => ([], false, [])

/-- `Keyboard<N>::update()` (Keyboard.hpp lines 178-223).  `now0` is the
value `m_getMillis()` returned (a `uint32_t`, hence the `% U32`);
`levels` are the raw pin reads of the keys in configuration order. -/
def update (kb : Keyboard) (now0 : Nat) (levels : List Bool) : UpdResult :=
  let now := now0 % U32
  if sub32 now kb.lastRead < kb.debounceMs then ⟨kb, false, []⟩
  else
    let r := scan now kb.callback kb.keys kb.states levels
    ⟨{ kb with states := r.1, lastRead := now }, r.2.1, r.2.2⟩

/-- `Keyboard<N>::clear()` (lines 134-140).  The loop body resets each
state and assigns `lastRead = 0`; the assignment sits inside the loop,
so it executes only when `N > 0` (C++ forbids `N = 0` anyway). -/
def clear (kb : Keyboard) : Keyboard :=
  { kb with
    states := kb.states.map fun _ => ⟨false, 0⟩,
    lastRead := if kb.states.isEmpty then kb.lastRead else 0 }

/-- The lookup loop of `isPressed` (lines 125-130): the strcmp guard
`m_keys[i].name && keyName && strcmp(...) == 0` compares only when both
pointers are non-null. -/
def isPressedAux (keyName : Option String) :
    List KeyConfig → List KeyState → Bool
  | cfg :: ks, st :: sts =>
    match cfg.name, keyName with
    | some n, some n' =>
      if n = n' then st.pressed else isPressedAux keyName ks sts
    | _, _ => isPressedAux keyName ks sts
  | _, _ => false

/-- `Keyboard<N>::isPressed(const char *keyName)` (lines 124-131). -/
def isPressed (kb : Keyboard) (keyName : Option String) : Bool :=
  isPressedAux keyName kb.keys kb.states

/-- One entry of `getStatus`'s output (lines 146-154). -/
def statusOfKey (now : Nat) (cfg : KeyConfig) (st : KeyState) : KeyStatus :=
  if st.pressed then
    let d := sub32 now st.pressTime
    ⟨cfg.name, true, decide (d ≥ cfg.holdTimeMs), d⟩
  else
    ⟨cfg.name, false, false, 0⟩

/-- The loop of `getStatus` (lines 145-155). -/
def getStatusAux (now : Nat) :
    List KeyConfig → List KeyState → List KeyStatus
  | cfg :: ks, st :: sts => statusOfKey now cfg st :: getStatusAux now ks sts
  | _, _ => []

/-- `Keyboard<N>::getStatus(KeyStatus (&out)[N])` (lines 143-156).
`now0` is the value `m_getMillis()` returned for this call.  A pure
read: it takes `kb` by value and returns only the snapshot. -/
def getStatus (kb : Keyboard) (now0 : Nat) : List KeyStatus :=
  getStatusAux (now0 % U32) kb.keys kb.states

/-- The constructor's initial state (lines 101-118 and the member
initializers at 164-169): `m_states[N] = {}` zero-initializes every
`KeyState`, `m_callback = nullptr`, `m_debounceMs = 20`,
`lastRead = 0`.  The pin auto-init is a hardware side effect with no
bearing on the state machine. -/
def Keyboard.init (keys : List KeyConfig) : Keyboard :=
  { keys := keys
    states := keys.map fun _ => ⟨false, 0⟩
    callback := false
    debounceMs := 20
    lastRead := 0 }

/-- `setDebounce(uint32_t debounceMs)` (line 121). -/
def setDebounce (kb : Keyboard) (ms : Nat) : Keyboard :=
  { kb with debounceMs := ms % U32 }

/-- `setCallback(KeyCallback cb)` (line 122), tracked as the
registered/not-registered flag. -/
def setCallback (kb : Keyboard) (cb : Bool) : Keyboard :=
  { kb with callback := cb }

/-- A sequence of `update()` calls, each given its clock reading and raw
pin levels; returns the result of every call in order. -/
def run (kb : Keyboard) : List (Nat × List Bool) → List UpdResult
  | [] => []
  | (now, lv) :: rest =>
    let r := update kb now lv
    r :: run r.kb rest

/-! ## Concrete keyboards used to exercise the theorems -/

/-- One key "UP" (active-high, hold 1000 ms), currently pressed since
t = 100, callback registered, last accepted poll at t = 100. -/
def kbC1 : Keyboard :=
  ⟨[⟨true, some "UP", 1000⟩], [⟨true, 100⟩], true, 20, 100⟩

/-- One key "UP" (active-high, hold 1000 ms), idle, never polled. -/
def kbC2 : Keyboard :=
  ⟨[⟨true, some "UP", 1000⟩], [⟨false, 0⟩], false, 20, 0⟩

/-- One key "A" (active-high, hold 10 ms), idle, never polled. -/
def kbC3 : Keyboard :=
  ⟨[⟨true, some "A", 10⟩], [⟨false, 0⟩], false, 20, 0⟩

/-- One key "A" pressed since t = 50, callback registered, last
accepted poll at t = 100. -/
def kbC4 : Keyboard :=
  ⟨[⟨true, some "A", 1000⟩], [⟨true, 50⟩], true, 20, 100⟩

/-- One idle key "A"; the last accepted poll recorded t = 100, so a
clock reading of 50 is a non-monotonic step backwards. -/
def kbC5 : Keyboard :=
  ⟨[⟨true, some "A", 1000⟩], [⟨false, 0⟩], false, 20, 100⟩

/-- One key "A" pressed since t = 100, last accepted poll at t = 100. -/
def kbC7 : Keyboard :=
  ⟨[⟨true, some "UP", 1000⟩], [⟨true, 100⟩], false, 20, 100⟩

/-- Keys "A" and "B": "A" released, "B" pressed since t = 5. -/
def kbC8 : Keyboard :=
  ⟨[⟨true, some "A", 10⟩, ⟨true, some "B", 10⟩],
    [⟨false, 0⟩, ⟨true, 5⟩], false, 20, 0⟩

/-- Two idle keys "A" and "B", callback registered, never polled. -/
def kbC9 : Keyboard :=
  ⟨[⟨true, some "A", 10⟩, ⟨true, some "B", 10⟩],
    [⟨false, 0⟩, ⟨false, 0⟩], true, 20, 0⟩

/-! ## Arithmetic lemmas about the wrapping `uint32_t` subtraction -/

lemma U32_pos : 0 < U32 := by decide

lemma sub32_of_le {a b : Nat} (hba : b ≤ a) (ha : a < U32) :
    sub32 a b = a - b := by
  have hb : b % U32 = b := Nat.mod_eq_of_lt (lt_of_le_of_lt hba ha)
  unfold sub32
  rw [hb]
  have h1 : a + U32 - b = a - b + U32 := by omega
  rw [h1, Nat.add_mod_right, Nat.mod_eq_of_lt (by omega)]

lemma sub32_of_lt {a b : Nat} (hab : a < b) (hb : b < U32) :
    sub32 a b = U32 - (b - a) := by
  have hbm : b % U32 = b := Nat.mod_eq_of_lt hb
  unfold sub32
  rw [hbm, Nat.mod_eq_of_lt (by omega)]
  omega

lemma sub32_zero (a : Nat) : sub32 a 0 = a % U32 := by
  unfold sub32
  simp [Nat.add_mod_right]

/-! ## Unfolding lemmas for `update` and `scan` -/

lemma update_rejected {kb : Keyboard} {now0 : Nat} {levels : List Bool}
    (h : sub32 (now0 % U32) kb.lastRead < kb.debounceMs) :
    update kb now0 levels = ⟨kb, false, []⟩ := by
  unfold update
  simp [h]

lemma update_accepted {kb : Keyboard} {now0 : Nat} {levels : List Bool}
    (h : kb.debounceMs ≤ sub32 (now0 % U32) kb.lastRead) :
    update kb now0 levels =
      ⟨{ kb with
          states := (scan (now0 % U32) kb.callback kb.keys kb.states levels).1,
          lastRead := now0 % U32 },
        (scan (now0 % U32) kb.callback kb.keys kb.states levels).2.1,
        (scan (now0 % U32) kb.callback kb.keys kb.states levels).2.2⟩ := by
  unfold update
  rw [if_neg (by omega)]

lemma scan_cons (now : Nat) (cb : Bool) (k : KeyConfig) (ks : List KeyConfig)
    (s : KeyState) (sts : List KeyState) (l : Bool) (ls : List Bool) :
    scan now cb (k :: ks) (s :: sts) (l :: ls) =
      ((stepKey now cb k (l == k.activeLevel) s).1 :: (scan now cb ks sts ls).1,
       (stepKey now cb k (l == k.activeLevel) s).2.1 || (scan now cb ks sts ls).2.1,
       (stepKey now cb k (l == k.activeLevel) s).2.2 :: (scan now cb ks sts ls).2.2) :=
  rfl

/-- Positional view of one accepted scan: if configuration, state and raw
level all exist at index `j`, the output state and the callback trace at
index `j` are those produced by the loop body for that key. -/
lemma scan_getElem?_some (now : Nat) (cb : Bool) :
    ∀ (j : Nat) (ks : List KeyConfig) (sts : List KeyState) (ls : List Bool)
      {cfg : KeyConfig} {st : KeyState} {lvl : Bool},
      ks[j]? = some cfg → sts[j]? = some st → ls[j]? = some lvl →
      (scan now cb ks sts ls).1[j]? =
        some (stepKey now cb cfg (lvl == cfg.activeLevel) st).1 ∧
      (scan now cb ks sts ls).2.2[j]? =
        some (stepKey now cb cfg (lvl == cfg.activeLevel) st).2.2 := by
  intro j
  induction j with
  | zero =>
    intro ks sts ls cfg st lvl hk hs hl
    cases ks with
    | nil => simp at hk
    | cons k ks =>
      cases sts with
      | nil => simp at hs
      | cons s sts =>
        cases ls with
        | nil => simp at hl
        | cons l ls =>
          simp only [List.getElem?_cons_zero, Option.some.injEq] at hk hs hl
          subst hk; subst hs; subst hl
          simp [scan_cons]
  | succ j ih =>
    intro ks sts ls cfg st lvl hk hs hl
    cases ks with
    | nil => simp at hk
    | cons k ks =>
      cases sts with
      | nil => simp at hs
      | cons s sts =>
        cases ls with
        | nil => simp at hl
        | cons l ls =>
          simp only [List.getElem?_cons_succ] at hk hs hl
          simpa [scan_cons] using ih ks sts ls hk hs hl

lemma scan_lengths (now : Nat) (cb : Bool) :
    ∀ (ks : List KeyConfig) (sts : List KeyState) (ls : List Bool),
      (scan now cb ks sts ls).1.length =
        min ks.length (min sts.length ls.length) ∧
      (scan now cb ks sts ls).2.2.length =
        min ks.length (min sts.length ls.length) := by
  intro ks
  induction ks with
  | nil => intro sts ls; simp [scan]
  | cons k ks ih =>
    intro sts ls
    cases sts with
    | nil => simp [scan]
    | cons s sts =>
      cases ls with
      | nil => simp [scan]
      | cons l ls =>
        have := ih sts ls
        simp only [scan_cons, List.length_cons, this.1, this.2]
        omega


lemma scan_nil_keys (now : Nat) (cb : Bool) (sts : List KeyState)
    (ls : List Bool) : scan now cb [] sts ls = ([], false, []) := rfl

lemma scan_nil_states (now : Nat) (cb : Bool) (k : KeyConfig)
    (ks : List KeyConfig) (ls : List Bool) :
    scan now cb (k :: ks) [] ls = ([], false, []) := rfl

lemma scan_nil_levels (now : Nat) (cb : Bool) (k : KeyConfig)
    (ks : List KeyConfig) (s : KeyState) (sts : List KeyState) :
    scan now cb (k :: ks) (s :: sts) [] = ([], false, []) := rfl

/-- The per-key loop body sets `anyKeyChanged` exactly when the raw
reading disagrees with the settled state. -/
lemma stepKey_changed (now : Nat) (cb : Bool) (cfg : KeyConfig)
    (raw : Bool) (st : KeyState) :
    (stepKey now cb cfg raw st).2.1 = (raw != st.pressed) := by
  rcases st with ⟨p, t⟩
  cases raw <;> cases p <;> simp [stepKey]

/-- `anyKeyChanged` after the scan is true iff some key's raw reading
disagreed with its settled state. -/
lemma scan_changed_iff (now : Nat) (cb : Bool) :
    ∀ (ks : List KeyConfig) (sts : List KeyState) (ls : List Bool),
      ((scan now cb ks sts ls).2.1 = true ↔
        ∃ (j : Nat) (cfg : KeyConfig) (st : KeyState) (lvl : Bool),
          ks[j]? = some cfg ∧ sts[j]? = some st ∧
          ls[j]? = some lvl ∧ (lvl == cfg.activeLevel) ≠ st.pressed) := by
  intro ks
  induction ks with
  | nil =>
    intro sts ls
    rw [scan_nil_keys]
    constructor
    · intro h; simp at h
    · rintro ⟨j, cfg, st, lvl, hk, -, -, -⟩; simp at hk
  | cons k ks ih =>
    intro sts ls
    cases sts with
    | nil =>
      rw [scan_nil_states]
      constructor
      · intro h; simp at h
      · rintro ⟨j, cfg, st, lvl, -, hs, -, -⟩; simp at hs
    | cons s sts =>
      cases ls with
      | nil =>
        rw [scan_nil_levels]
        constructor
        · intro h; simp at h
        · rintro ⟨j, cfg, st, lvl, -, -, hl, -⟩; simp at hl
      | cons l ls =>
        rw [scan_cons]
        simp only [Bool.or_eq_true, stepKey_changed, ih sts ls]
        constructor
        · rintro (h | ⟨j, cfg, st, lvl, hk, hs, hl, hne⟩)
          · exact ⟨0, k, s, l, by simp, by simp, by simp,
              by simpa [bne_iff_ne] using h⟩
          · exact ⟨j + 1, cfg, st, lvl, by simpa using hk, by simpa using hs,
              by simpa using hl, hne⟩
        · rintro ⟨j, cfg, st, lvl, hk, hs, hl, hne⟩
          cases j with
          | zero =>
            left
            simp only [List.getElem?_cons_zero, Option.some.injEq] at hk hs hl
            subst hk; subst hs; subst hl
            simpa [bne_iff_ne] using hne
          | succ j =>
            right
            exact ⟨j, cfg, st, lvl, by simpa using hk, by simpa using hs,
              by simpa using hl, hne⟩

/-- Positional view of the `getStatus` loop. -/
lemma getStatusAux_getElem?_some (now : Nat) :
    ∀ (j : Nat) (ks : List KeyConfig) (sts : List KeyState)
      {cfg : KeyConfig} {st : KeyState},
      ks[j]? = some cfg → sts[j]? = some st →
      (getStatusAux now ks sts)[j]? = some (statusOfKey now cfg st) := by
  intro j
  induction j with
  | zero =>
    intro ks sts cfg st hk hs
    cases ks with
    | nil => simp at hk
    | cons k ks =>
      cases sts with
      | nil => simp at hs
      | cons s sts =>
        simp only [List.getElem?_cons_zero, Option.some.injEq] at hk hs
        subst hk; subst hs
        simp [getStatusAux]
  | succ j ih =>
    intro ks sts cfg st hk hs
    cases ks with
    | nil => simp at hk
    | cons k ks =>
      cases sts with
      | nil => simp at hs
      | cons s sts =>
        simp only [List.getElem?_cons_succ] at hk hs
        simpa [getStatusAux] using ih ks sts hk hs

/-- If no configured key carries name `n`, the `isPressed` lookup loop
falls through and returns false. -/
lemma isPressedAux_not_found {n : String} :
    ∀ (ks : List KeyConfig) (sts : List KeyState),
      (∀ cfg ∈ ks, cfg.name ≠ some n) →
      isPressedAux (some n) ks sts = false := by
  intro ks
  induction ks with
  | nil => intro sts h; cases sts <;> simp [isPressedAux]
  | cons k ks ih =>
    intro sts h
    cases sts with
    | nil => simp [isPressedAux]
    | cons s sts =>
      have hk : k.name ≠ some n := h k (List.mem_cons_self k ks)
      have hrest : ∀ cfg ∈ ks, cfg.name ≠ some n :=
        fun cfg hc => h cfg (List.mem_cons_of_mem k hc)
      cases hkn : k.name with
      | none => simpa [isPressedAux, hkn] using ih sts hrest
      | some m =>
        have hmn : m ≠ n := fun he => hk (by rw [hkn, he])
        simpa [isPressedAux, hkn, hmn] using ih sts hrest

/-- First-match-wins for the `isPressed` lookup loop: if every key before
position `j` lacks name `n` and the key at `j` carries it, the loop
returns that key's settled flag. -/
lemma isPressedAux_first_match {n : String} :
    ∀ (k1 k2 : List KeyConfig) (s1 s2 : List KeyState)
      (cfg : KeyConfig) (st : KeyState),
      k1.length = s1.length → cfg.name = some n →
      (∀ c ∈ k1, c.name ≠ some n) →
      isPressedAux (some n) (k1 ++ cfg :: k2) (s1 ++ st :: s2) = st.pressed := by
  intro k1
  induction k1 with
  | nil =>
    intro k2 s1 s2 cfg st hlen hname h
    cases s1 with
    | nil => simp [isPressedAux, hname]
    | cons s s1 => simp at hlen
  | cons k k1 ih =>
    intro k2 s1 s2 cfg st hlen hname h
    cases s1 with
    | nil => simp at hlen
    | cons s s1 =>
      have hk : k.name ≠ some n := h k (List.mem_cons_self k k1)
      have hrest : ∀ c ∈ k1, c.name ≠ some n :=
        fun c hc => h c (List.mem_cons_of_mem k hc)
      have hlen1 : k1.length = s1.length := by simpa using hlen
      cases hkn : k.name with
      | none =>
        simpa [isPressedAux, hkn] using ih k2 s1 s2 cfg st hlen1 hname hrest
      | some m =>
        have hmn : m ≠ n := fun he => hk (by rw [hkn, he])
        simpa [isPressedAux, hkn, hmn] using ih k2 s1 s2 cfg st hlen1 hname hrest

/-! ## Independence of keys: comparing two executions that differ only in
the raw levels of one key position `K` -/

/-- Two lists of equal length that agree at every position other than `K`. -/
def agreeExcept {α : Type} (K : Nat) (l1 l2 : List α) : Prop :=
  l1.length = l2.length ∧ ∀ j, j < l1.length → j ≠ K → l1[j]? = l2[j]?

instance {α : Type} [DecidableEq α] (K : Nat) (l1 l2 : List α) :
    Decidable (agreeExcept K l1 l2) := by
  unfold agreeExcept
  infer_instance

/-- Two keyboards with the same configuration, callback registration,
debounce interval and gate time, whose per-key states agree at every
position other than `K`. -/
def kbAgreeExcept (K : Nat) (kb kb' : Keyboard) : Prop :=
  kb.keys = kb'.keys ∧ kb.callback = kb'.callback ∧
  kb.debounceMs = kb'.debounceMs ∧ kb.lastRead = kb'.lastRead ∧
  agreeExcept K kb.states kb'.states

instance (K : Nat) (kb kb' : Keyboard) : Decidable (kbAgreeExcept K kb kb') := by
  unfold kbAgreeExcept
  infer_instance

/-- Two input sequences for `run` with identical clock readings whose raw
levels agree at every key position other than `K` on every call. -/
def inputsAgreeExcept (K : Nat) :
    List (Nat × List Bool) → List (Nat × List Bool) → Prop
  | [], [] => True
  | (n, lv) :: r, (n2, lv2) :: r2 =>
    n = n2 ∧ agreeExcept K lv lv2 ∧ inputsAgreeExcept K r r2
  | _, _ => False

instance instDecidableInputsAgreeExcept (K : Nat) :
    ∀ (l1 l2 : List (Nat × List Bool)), Decidable (inputsAgreeExcept K l1 l2)
  | [], [] => isTrue trivial
  | (_, _) :: _, [] => isFalse fun h => h
  | [], (_, _) :: _ => isFalse fun h => h
  | (n, lv) :: r, (n2, lv2) :: r2 => by
    unfold inputsAgreeExcept
    have := instDecidableInputsAgreeExcept K r r2
    infer_instance

/-- Call-by-call agreement of two executions away from key `K`: the
keyboards agree off `K` after every call and the callback traces agree
at every key position other than `K`. -/
def resultsAgreeExcept (K : Nat) : List UpdResult → List UpdResult → Prop
  | [], [] => True
  | r :: rs, r2 :: rs2 =>
    kbAgreeExcept K r.kb r2.kb ∧ agreeExcept K r.events r2.events ∧
    resultsAgreeExcept K rs rs2
  | _, _ => False

lemma agreeExcept_refl {α : Type} (K : Nat) (l : List α) :
    agreeExcept K l l := ⟨rfl, fun _ _ _ => rfl⟩

lemma agreeExcept_nil {α : Type} (K : Nat) :
    agreeExcept K ([] : List α) [] := agreeExcept_refl K []

/-- The scan preserves off-`K` agreement: same configurations, states and
levels agreeing away from `K` give output states and callback traces
agreeing away from `K`. -/
lemma scan_agreeExcept {K : Nat} (now : Nat) (cb : Bool)
    (ks : List KeyConfig) {sts sts2 : List KeyState} {ls ls2 : List Bool}
    (hs : agreeExcept K sts sts2) (hl : agreeExcept K ls ls2) :
    agreeExcept K (scan now cb ks sts ls).1 (scan now cb ks sts2 ls2).1 ∧
    agreeExcept K (scan now cb ks sts ls).2.2 (scan now cb ks sts2 ls2).2.2 := by
  have L := scan_lengths now cb ks sts ls
  have L2 := scan_lengths now cb ks sts2 ls2
  have key : ∀ j, j < ks.length → j < sts.length → j < ls.length → j ≠ K →
      (scan now cb ks sts ls).1[j]? = (scan now cb ks sts2 ls2).1[j]? ∧
      (scan now cb ks sts ls).2.2[j]? = (scan now cb ks sts2 ls2).2.2[j]? := by
    intro j hjk hjs hjl hjK
    have hk : ks[j]? = some ks[j] := List.getElem?_eq_getElem hjk
    have h1 : sts[j]? = some sts[j] := List.getElem?_eq_getElem hjs
    have h2 : sts2[j]? = some sts[j] := by rw [← hs.2 j hjs hjK]; exact h1
    have h3 : ls[j]? = some ls[j] := List.getElem?_eq_getElem hjl
    have h4 : ls2[j]? = some ls[j] := by rw [← hl.2 j hjl hjK]; exact h3
    have e1 := scan_getElem?_some now cb j ks sts ls hk h1 h3
    have e2 := scan_getElem?_some now cb j ks sts2 ls2 hk h2 h4
    exact ⟨by rw [e1.1, e2.1], by rw [e1.2, e2.2]⟩
  constructor
  · refine ⟨by rw [L.1, L2.1, hs.1, hl.1], ?_⟩
    intro j hj hjK
    rw [L.1] at hj
    exact (key j (by omega) (by omega) (by omega) hjK).1
  · refine ⟨by rw [L.2, L2.2, hs.1, hl.1], ?_⟩
    intro j hj hjK
    rw [L.2] at hj
    exact (key j (by omega) (by omega) (by omega) hjK).2

/-- One `update()` call preserves off-`K` agreement of keyboards and
produces callback traces agreeing away from `K`. -/
lemma update_agreeExcept {K : Nat} {kb kb2 : Keyboard} (now : Nat)
    {lv lv2 : List Bool}
    (hkb : kbAgreeExcept K kb kb2) (hlv : agreeExcept K lv lv2) :
    kbAgreeExcept K (update kb now lv).kb (update kb2 now lv2).kb ∧
    agreeExcept K (update kb now lv).events (update kb2 now lv2).events := by
  obtain ⟨hkeys, hcb, hdeb, hlast, hstates⟩ := hkb
  by_cases hgate : sub32 (now % U32) kb.lastRead < kb.debounceMs
  · have hgate2 : sub32 (now % U32) kb2.lastRead < kb2.debounceMs := by
      rw [← hlast, ← hdeb]; exact hgate
    rw [update_rejected hgate, update_rejected hgate2]
    exact ⟨⟨hkeys, hcb, hdeb, hlast, hstates⟩, agreeExcept_nil K⟩
  · have hacc : kb.debounceMs ≤ sub32 (now % U32) kb.lastRead := by omega
    have hacc2 : kb2.debounceMs ≤ sub32 (now % U32) kb2.lastRead := by
      rw [← hlast, ← hdeb]; exact hacc
    rw [update_accepted hacc, update_accepted hacc2, hkeys, hcb, hdeb]
    have hsc := scan_agreeExcept (now % U32) kb2.callback kb2.keys hstates hlv
    exact ⟨⟨rfl, rfl, rfl, rfl, hsc.1⟩, hsc.2⟩

/-! ## The claims -/

/-- C1: for a configured key whose settled state is pressed with
press-timestamp `T`, an accepted `update()` poll at time `T + D` that
reads the key's raw level as inactive settles the key to not-pressed
and — when a callback is registered — invokes the callback exactly once
for that key during the call, with the key's identifier, duration `D`
and long-press flag `D ≥ holdTimeMs`. -/
theorem keyboard_release_event (kb : Keyboard) (lv : List Bool)
    (i T D : Nat) (cfg : KeyConfig) (lvl : Bool)
    (hcfg : kb.keys[i]? = some cfg)
    (hst : kb.states[i]? = some ⟨true, T⟩)
    (hlv : lv[i]? = some lvl)
    (hraw : (lvl == cfg.activeLevel) = false)
    (hTD : T + D < U32)
    (hgate : kb.debounceMs ≤ sub32 (T + D) kb.lastRead)
    (hcb : kb.callback = true) :
    (update kb (T + D) lv).kb.states[i]? = some ⟨false, T⟩ ∧
    (update kb (T + D) lv).events[i]? =
      some (some ⟨cfg.name, decide (D ≥ cfg.holdTimeMs), D⟩) := by
  have hmod : (T + D) % U32 = T + D := Nat.mod_eq_of_lt hTD
  have hgate2 : kb.debounceMs ≤ sub32 ((T + D) % U32) kb.lastRead := by
    rw [hmod]; exact hgate
  rw [update_accepted hgate2]
  have hs := scan_getElem?_some ((T + D) % U32) kb.callback i
    kb.keys kb.states lv hcfg hst hlv
  have hdur : sub32 ((T + D) % U32) T = D := by
    rw [hmod, sub32_of_le (by omega) hTD]
    omega
  have hstep : stepKey ((T + D) % U32) kb.callback cfg
      (lvl == cfg.activeLevel) ⟨true, T⟩ =
      (⟨false, T⟩, true, some ⟨cfg.name, decide (D ≥ cfg.holdTimeMs), D⟩) := by
    rw [hraw, hcb]
    simp [stepKey, hdur]
  constructor
  · show (scan ((T + D) % U32) kb.callback kb.keys kb.states lv).1[i]? =
      some ⟨false, T⟩
    rw [hs.1, hstep]
  · show (scan ((T + D) % U32) kb.callback kb.keys kb.states lv).2.2[i]? =
      some (some ⟨cfg.name, decide (D ≥ cfg.holdTimeMs), D⟩)
    rw [hs.2, hstep]

/-- C1 witness: "UP" pressed at t = 100 and released at an accepted poll
at t = 600 is settled to not-pressed with exactly one callback
invocation carrying duration 500 and a short-press classification. -/
theorem keyboard_release_event_witness :
    (update kbC1 600 [false]).kb.states[0]? = some ⟨false, 100⟩ ∧
    (update kbC1 600 [false]).events[0]? =
      some (some ⟨some "UP", false, 500⟩) :=
  keyboard_release_event kbC1 [false] 0 100 500 ⟨true, some "UP", 1000⟩ false
    rfl rfl rfl rfl (by decide) (by decide) rfl

/-- C2: a configured key whose settled state is not-pressed and whose
raw level reads active at an accepted poll becomes pressed with
press-timestamp equal to the poll's `now`, and no callback is invoked
for that key on that call. -/
theorem keyboard_press_transition (kb : Keyboard) (lv : List Bool)
    (i now pt : Nat) (cfg : KeyConfig) (lvl : Bool)
    (hcfg : kb.keys[i]? = some cfg)
    (hst : kb.states[i]? = some ⟨false, pt⟩)
    (hlv : lv[i]? = some lvl)
    (hraw : (lvl == cfg.activeLevel) = true)
    (hnow : now < U32)
    (hgate : kb.debounceMs ≤ sub32 now kb.lastRead) :
    (update kb now lv).kb.states[i]? = some ⟨true, now⟩ ∧
    (update kb now lv).events[i]? = some none := by
  have hmod : now % U32 = now := Nat.mod_eq_of_lt hnow
  have hgate2 : kb.debounceMs ≤ sub32 (now % U32) kb.lastRead := by
    rw [hmod]; exact hgate
  rw [update_accepted hgate2]
  have hs := scan_getElem?_some (now % U32) kb.callback i
    kb.keys kb.states lv hcfg hst hlv
  have hstep : stepKey (now % U32) kb.callback cfg
      (lvl == cfg.activeLevel) ⟨false, pt⟩ =
      (⟨true, now⟩, true, none) := by
    rw [hraw, hmod]
    simp [stepKey]
  constructor
  · show (scan (now % U32) kb.callback kb.keys kb.states lv).1[i]? =
      some ⟨true, now⟩
    rw [hs.1, hstep]
  · show (scan (now % U32) kb.callback kb.keys kb.states lv).2.2[i]? =
      some none
    rw [hs.2, hstep]

/-- C2 witness: idle "UP" reading active at an accepted poll at t = 100
becomes pressed with press-timestamp 100 and no callback invocation. -/
theorem keyboard_press_transition_witness :
    (update kbC2 100 [true]).kb.states[0]? = some ⟨true, 100⟩ ∧
    (update kbC2 100 [true]).events[0]? = some none :=
  keyboard_press_transition kbC2 [true] 0 100 0 ⟨true, some "UP", 1000⟩ true
    rfl rfl rfl rfl (by decide) (by decide)

/-- C3: when two consecutive `update()` calls read clock values less
than `debounceMs` apart (the first one accepted, the clock
non-decreasing between them), the second call returns false, invokes no
callback, and leaves the whole object — every key's settled state and
press-timestamp and the debounce gate `lastRead` — unchanged,
whatever raw levels it would have sampled. -/
theorem debounce_gate_rejects_close_polls (kb : Keyboard)
    (now1 now2 : Nat) (lv1 lv2 : List Bool)
    (hacc : kb.debounceMs ≤ sub32 (now1 % U32) kb.lastRead)
    (h12 : now1 ≤ now2) (h2 : now2 < U32)
    (hlt : now2 - now1 < kb.debounceMs) :
    update (update kb now1 lv1).kb now2 lv2 =
      ⟨(update kb now1 lv1).kb, false, []⟩ := by
  rw [update_accepted hacc]
  apply update_rejected
  show sub32 (now2 % U32) (now1 % U32) < kb.debounceMs
  rw [Nat.mod_eq_of_lt h2, Nat.mod_eq_of_lt (by omega), sub32_of_le h12 h2]
  exact hlt

/-- C3 witness: after an accepted poll at t = 100, a poll at t = 110
with a 20 ms debounce returns false and changes nothing. -/
theorem debounce_gate_rejects_close_polls_witness :
    update (update kbC3 100 [true]).kb 110 [false] =
      ⟨(update kbC3 100 [true]).kb, false, []⟩ :=
  debounce_gate_rejects_close_polls kbC3 100 110 [true] [false]
    (by decide) (by decide) (by decide) (by decide)

/-- C4 counterexample: the claim that after `clear()` the very next
`update()` is always accepted regardless of elapsed time is false.
After clearing `kbC4` the gate time is 0, so an `update()` whose clock
reads 5 (< the 20 ms debounce) is rejected: it returns false and leaves
the object untouched, even though the key's raw level is active — an
accepted poll would have pressed the key and returned true. -/
theorem clear_next_update_rejected_cex :
    update (clear kbC4) 5 [true] = ⟨clear kbC4, false, []⟩ ∧
    (update (clear kbC4) 5 [true]).kb.states[0]? = some ⟨false, 0⟩ ∧
    (clear kbC4).debounceMs = 20 := by
  refine ⟨rfl, rfl, rfl⟩

/-- C4 amended: `clear()` resets every key to not-pressed with a zero
press-timestamp and (for a keyboard with at least one key — `N = 0` is
not valid C++ — since the `lastRead = 0` assignment sits inside the
per-key loop) resets the debounce gate to 0; it performs no callback
invocation (the source of `clear` contains no call to `m_callback`,
which is why our model of `clear` emits no events).  The next
`update()` is then accepted iff its clock reading (mod `2^32`) is at
least `debounceMs` — not unconditionally: a poll whose clock reads less
than `debounceMs` is still rejected. -/
theorem clear_resets_and_gate (kb : Keyboard) (now : Nat) (lv : List Bool)
    (hne : kb.states ≠ []) :
    (clear kb).states = kb.states.map (fun _ => ⟨false, 0⟩) ∧
    (clear kb).lastRead = 0 ∧
    (now % U32 < kb.debounceMs →
      update (clear kb) now lv = ⟨clear kb, false, []⟩) ∧
    (kb.debounceMs ≤ now % U32 →
      (update (clear kb) now lv).kb.lastRead = now % U32) := by
  have h0 : kb.states.isEmpty = false := by
    cases h : kb.states with
    | nil => exact absurd h hne
    | cons a l => rfl
  have hlast : (clear kb).lastRead = 0 := by
    show (if kb.states.isEmpty = true then kb.lastRead else 0) = 0
    rw [h0]
    rfl
  have hmm : now % U32 % U32 = now % U32 := Nat.mod_mod_of_dvd now dvd_rfl
  refine ⟨rfl, hlast, ?_, ?_⟩
  · intro h
    apply update_rejected
    show sub32 (now % U32) (clear kb).lastRead < (clear kb).debounceMs
    rw [hlast, sub32_zero, hmm]
    exact h
  · intro h
    have hacc : (clear kb).debounceMs ≤ sub32 (now % U32) (clear kb).lastRead := by
      show kb.debounceMs ≤ sub32 (now % U32) (clear kb).lastRead
      rw [hlast, sub32_zero, hmm]
      exact h
    rw [update_accepted hacc]

/-- C4 amended witness: clearing `kbC4` resets its one key and its
gate, and a subsequent poll whose clock reads 5 (< 20) is rejected
while one reading 100 is accepted. -/
theorem clear_resets_and_gate_witness :
    ((clear kbC4).states = kbC4.states.map (fun _ => ⟨false, 0⟩) ∧
      (clear kbC4).lastRead = 0 ∧
      (5 % U32 < kbC4.debounceMs →
        update (clear kbC4) 5 [true] = ⟨clear kbC4, false, []⟩) ∧
      (kbC4.debounceMs ≤ 5 % U32 →
        (update (clear kbC4) 5 [true]).kb.lastRead = 5 % U32)) ∧
    (update (clear kbC4) 100 [true]).kb.lastRead = 100 % U32 :=
  ⟨clear_resets_and_gate kbC4 5 [true] (by decide),
   (clear_resets_and_gate kbC4 100 [true] (by decide)).2.2.2 (by decide)⟩

/-- C5 counterexample: the claim that a non-monotonic clock reading
(`now < lastRead`) makes `update()` return false with no state change
is false.  `kbC5` saw its last accepted poll at t = 100; an `update()`
whose clock reads 50 computes the wrapped `uint32_t` difference
`2^32 - 50`, which passes the 20 ms gate, so the poll is accepted: it
presses the key whose raw level is active and returns true. -/
theorem nonmonotonic_accepted_cex :
    50 < kbC5.lastRead ∧
    (update kbC5 50 [true]).changed = true ∧
    (update kbC5 50 [true]).kb.states[0]? = some ⟨true, 50⟩ := by
  refine ⟨by decide, rfl, rfl⟩

/-- C5 amended: when `update()` observes `now < lastRead` the unsigned
subtraction wraps, so the call is rejected (returns false, no state
change) only in the extreme case `2^32 - (lastRead - now) < debounceMs`;
whenever the wrapped difference reaches `debounceMs` — in particular for
any modest backward step of the clock — the poll is accepted and
proceeds to scan the keys. -/
theorem nonmonotonic_gate_amended (kb : Keyboard) (now : Nat)
    (lv : List Bool)
    (h1 : now < kb.lastRead) (h2 : kb.lastRead < U32) :
    (kb.debounceMs ≤ U32 - (kb.lastRead - now) →
      (update kb now lv).kb.lastRead = now) ∧
    (U32 - (kb.lastRead - now) < kb.debounceMs →
      update kb now lv = ⟨kb, false, []⟩) := by
  have hnow : now % U32 = now := Nat.mod_eq_of_lt (by omega)
  have hsub : sub32 (now % U32) kb.lastRead = U32 - (kb.lastRead - now) := by
    rw [hnow]
    exact sub32_of_lt h1 h2
  constructor
  · intro h
    rw [update_accepted (by rw [hsub]; exact h)]
    exact hnow
  · intro h
    exact update_rejected (by rw [hsub]; exact h)

/-- C5 amended witness: with `lastRead = 100` a poll whose clock reads
50 is accepted (the gate time becomes 50). -/
theorem nonmonotonic_gate_amended_witness :
    (update kbC5 50 [true]).kb.lastRead = 50 :=
  (nonmonotonic_gate_amended kbC5 50 [true] (by decide) (by decide)).1
    (by decide)

/-- C6: `update()` returns true iff the poll passed the debounce gate
and at least one configured key's raw reading disagreed with its
settled state (i.e. some key transitioned); in particular it returns
false on a rejected poll and on an accepted poll with no transitions. -/
theorem update_changed_iff (kb : Keyboard) (now : Nat) (lv : List Bool) :
    (update kb now lv).changed = true ↔
      (kb.debounceMs ≤ sub32 (now % U32) kb.lastRead ∧
        ∃ (j : Nat) (cfg : KeyConfig) (st : KeyState) (lvl : Bool),
          kb.keys[j]? = some cfg ∧ kb.states[j]? = some st ∧
          lv[j]? = some lvl ∧ (lvl == cfg.activeLevel) ≠ st.pressed) := by
  by_cases hgate : sub32 (now % U32) kb.lastRead < kb.debounceMs
  · rw [update_rejected hgate]
    constructor
    · intro h
      exact Bool.noConfusion h
    · rintro ⟨hacc, -⟩
      exact absurd hacc (not_le.mpr hgate)
  · have hacc : kb.debounceMs ≤ sub32 (now % U32) kb.lastRead := by omega
    rw [update_accepted hacc]
    constructor
    · intro h
      exact ⟨hacc,
        (scan_changed_iff (now % U32) kb.callback kb.keys kb.states lv).1 h⟩
    · rintro ⟨-, hex⟩
      exact (scan_changed_iff (now % U32) kb.callback kb.keys kb.states lv).2 hex

/-- C7: the `getStatus` entry of key `i` carries the key's identifier
and its current settled flag; when pressed, its duration is the call's
`now` minus the press-timestamp and its long-press flag compares that
duration with the key's hold threshold; when not pressed, duration is 0
and the flag false.  `getStatus` is a pure read in the model: it takes
the object by value and returns only the snapshot, so no debouncer
state can change. -/
theorem getStatus_fields (kb : Keyboard) (now i : Nat)
    (cfg : KeyConfig) (st : KeyState)
    (hcfg : kb.keys[i]? = some cfg) (hst : kb.states[i]? = some st)
    (hnow : now < U32) (hpt : st.pressTime ≤ now) :
    (getStatus kb now)[i]? = some
      ⟨cfg.name, st.pressed,
        st.pressed && decide (now - st.pressTime ≥ cfg.holdTimeMs),
        if st.pressed then now - st.pressTime else 0⟩ := by
  unfold getStatus
  rw [Nat.mod_eq_of_lt hnow,
    getStatusAux_getElem?_some now i kb.keys kb.states hcfg hst]
  rcases st with ⟨p, t⟩
  have ht : t ≤ now := hpt
  cases p with
  | false => simp [statusOfKey]
  | true =>
    simp only [statusOfKey, if_pos]
    rw [sub32_of_le ht hnow]
    simp

/-- C7 witness: "UP" pressed since t = 100, queried at t = 600, reports
pressed with duration 500 and no long press (threshold 1000). -/
theorem getStatus_fields_witness :
    (getStatus kbC7 600)[0]? = some ⟨some "UP", true, false, 500⟩ :=
  getStatus_fields kbC7 600 0 ⟨true, some "UP", 1000⟩ ⟨true, 100⟩
    rfl rfl (by decide) (by decide)

/-- C8: `isPressed` returns false when no configured key carries the
requested identifier, and otherwise returns the settled flag of the
first key in configuration order carrying it (first match wins under
duplicate identifiers).  It is a pure read in the model: it takes the
object by value and returns only a Bool. -/
theorem isPressed_lookup (kb : Keyboard) (n : String) :
    ((∀ cfg ∈ kb.keys, cfg.name ≠ some n) →
      isPressed kb (some n) = false) ∧
    (∀ (k1 k2 : List KeyConfig) (s1 s2 : List KeyState)
        (cfg : KeyConfig) (st : KeyState),
      kb.keys = k1 ++ cfg :: k2 → kb.states = s1 ++ st :: s2 →
      k1.length = s1.length → cfg.name = some n →
      (∀ c ∈ k1, c.name ≠ some n) →
      isPressed kb (some n) = st.pressed) := by
  constructor
  · intro h
    exact isPressedAux_not_found kb.keys kb.states h
  · intro k1 k2 s1 s2 cfg st hk hsts hlen hname hnone
    unfold isPressed
    rw [hk, hsts]
    exact isPressedAux_first_match k1 k2 s1 s2 cfg st hlen hname hnone

/-- C8 witness: on a keyboard with keys "A" (released) and "B"
(pressed), `isPressed "B"` resolves to the first "B" entry and returns
true, and `isPressed "C"` (no such key) returns false. -/
theorem isPressed_lookup_witness :
    isPressed kbC8 (some "B") = true ∧ isPressed kbC8 (some "C") = false :=
  ⟨(isPressed_lookup kbC8 "B").2 [⟨true, some "A", 10⟩] []
      [⟨false, 0⟩] [] ⟨true, some "B", 10⟩ ⟨true, 5⟩
      rfl rfl rfl rfl (by decide),
    (isPressed_lookup kbC8 "C").1 (by decide)⟩

/-- C9: changing the raw levels of one key position `K` never affects
any other key.  Two executions of the same `update()` sequence that
start from keyboards agreeing everywhere off `K` and feed raw levels
agreeing everywhere off `K` produce, after every call, keyboards whose
per-key states agree at every position other than `K` and callback
traces that agree at every position other than `K` (so a callback is
invoked for a key other than `K` in one run iff it is invoked, with the
same payload, in the other). -/
theorem key_independence (K : Nat) (ins : List (Nat × List Bool)) :
    ∀ (ins2 : List (Nat × List Bool)) (kb kb2 : Keyboard),
      kbAgreeExcept K kb kb2 → inputsAgreeExcept K ins ins2 →
      resultsAgreeExcept K (run kb ins) (run kb2 ins2) := by
  induction ins with
  | nil =>
    intro ins2 kb kb2 hkb hins
    cases ins2 with
    | nil => exact trivial
    | cons p r => exact False.elim hins
  | cons p ins ih =>
    intro ins2 kb kb2 hkb hins
    cases ins2 with
    | nil => exact False.elim hins
    | cons p2 r2 =>
      obtain ⟨n, lv⟩ := p
      obtain ⟨n2, lv2⟩ := p2
      have hins2 : n = n2 ∧ agreeExcept K lv lv2 ∧
          inputsAgreeExcept K ins r2 := hins
      obtain ⟨hn, hlv, hrest⟩ := hins2
      subst hn
      have hu := update_agreeExcept n hkb hlv
      exact ⟨hu.1, hu.2, ih r2 _ _ hu.1 hrest⟩

/-- C9 witness: the same keyboard run once with key 0 held and once
with key 0 released (key 1 held in both) yields agreeing states and
callback traces at every position other than 0. -/
theorem key_independence_witness :
    resultsAgreeExcept 0 (run kbC9 [(100, [true, true])])
      (run kbC9 [(100, [false, true])]) :=
  key_independence 0 [(100, [true, true])] [(100, [false, true])]
    kbC9 kbC9 (by decide) (by decide)

/-- C10: a keyboard on which `setDebounce` was never called uses the
constructor's default of 20 ms in the poll-acceptance gate: `update()`
on the freshly constructed object is rejected exactly when its clock
reading (mod `2^32`, against the initial gate time 0) is below 20. -/
theorem default_debounce_is_20 (keys : List KeyConfig) (now : Nat)
    (lv : List Bool) :
    (Keyboard.init keys).debounceMs = 20 ∧
    (now % U32 < 20 →
      update (Keyboard.init keys) now lv = ⟨Keyboard.init keys, false, []⟩) ∧
    (20 ≤ now % U32 →
      (update (Keyboard.init keys) now lv).kb.lastRead = now % U32) := by
  have hmm : now % U32 % U32 = now % U32 := Nat.mod_mod_of_dvd now dvd_rfl
  refine ⟨rfl, ?_, ?_⟩
  · intro h
    apply update_rejected
    show sub32 (now % U32) (Keyboard.init keys).lastRead <
      (Keyboard.init keys).debounceMs
    show sub32 (now % U32) 0 < 20
    rw [sub32_zero, hmm]
    exact h
  · intro h
    have hacc : (Keyboard.init keys).debounceMs ≤
        sub32 (now % U32) (Keyboard.init keys).lastRead := by
      show 20 ≤ sub32 (now % U32) 0
      rw [sub32_zero, hmm]
      exact h
    rw [update_accepted hacc]

/-- C10 witness: on a fresh keyboard the default gate rejects a poll at
t = 5 and accepts one at t = 100. -/
theorem default_debounce_is_20_witness :
    (Keyboard.init ([] : List KeyConfig)).debounceMs = 20 ∧
    update (Keyboard.init ([] : List KeyConfig)) 5 [] =
      ⟨Keyboard.init [], false, []⟩ ∧
    (update (Keyboard.init ([] : List KeyConfig)) 100 []).kb.lastRead =
      100 % U32 :=
  ⟨(default_debounce_is_20 [] 5 []).1,
   (default_debounce_is_20 [] 5 []).2.1 (by decide),
   (default_debounce_is_20 [] 100 []).2.2 (by decide)⟩
